import Mathlib

/-!
Verification of the smart-signature tag parser (`src/binwalk/core/smart.py`).

Strings are embedded as `List Char` (`Str`).  The Python string operations
used by the source (`in`, `split`, `replace`, `find`, `startswith`, slicing)
are given executable structural definitions below; every Python scan is
left-to-right and non-overlapping, and so are these.

External collaborators that live outside `src/` (the math-expression
evaluator `MathExpression` and the plausibility filter
`MagicFilter.valid_result`) are abstracted as fields of `Externals`, and the
two missing helper functions (`get_quoted_strings`, `str2int` from
`binwalk.core.common`) are modelled from the spec; each such definition says
so in its doc comment.
-/

namespace BinwalkSmart

abbrev Str := List Char

/-- Python `pat in s` (substring containment, `"" in s` is true). -/
def occursIn (pat : Str) : Str → Bool
  | [] => pat.isPrefixOf []
  | c :: rest => pat.isPrefixOf (c :: rest) || occursIn pat rest

/-- The prefix of `s` strictly before the first occurrence of `pat`
(`s` itself when `pat` does not occur): Python `s.split(pat)[0]`. -/
def takeUntil (pat : Str) : Str → Str
  | [] => []
  | c :: rest => if pat.isPrefixOf (c :: rest) then [] else c :: takeUntil pat rest

/-- The suffix of `s` strictly after the first occurrence of `pat`
(`[]` when `pat` does not occur). -/
def dropThrough (pat : Str) : Str → Str
  | [] => []
  | c :: rest => if pat.isPrefixOf (c :: rest) then (c :: rest).drop pat.length else dropThrough pat rest

/-- Index of the first occurrence of `pat` in `s`, if any. -/
def findSub (pat : Str) : Str → Option Nat
  | [] => if pat.isPrefixOf [] then some 0 else none
  | c :: rest => if pat.isPrefixOf (c :: rest) then some 0 else (findSub pat rest).map (· + 1)

/-- Python `s.find(pat)`: first index, `-1` when absent. -/
def pyFind (pat s : Str) : Int :=
  match findSub pat s with
  | none => -1
  | some n => (n : Int)

/-- Python slice `s[:n]` with `n` a possibly negative integer:
`n < 0` counts from the end of the string. -/
def pySliceTake (s : Str) (n : Int) : Str :=
  if n < 0 then s.take (s.length - n.natAbs) else s.take n.toNat

/-- Replacement engine for Python `s.replace(pat, rep)`: left-to-right,
non-overlapping, every occurrence.  The first argument is an iteration
bound; `s.length` always suffices because every step consumes at least one
character of `s`. -/
def replaceAllA : Nat → Str → Str → Str → Str
  | 0, _, _, s => s
  | f + 1, pat, rep, s =>
    match s with
    | [] => []
    | c :: rest =>
      if pat ≠ [] ∧ pat.isPrefixOf (c :: rest) then
        rep ++ replaceAllA f pat rep ((c :: rest).drop pat.length)
      else
        c :: replaceAllA f pat rep rest

/-- Python `s.replace(pat, rep)`.  (The source never calls `replace` with an
empty pattern; for `pat = []` this returns `s` unchanged.) -/
def replaceAll (pat rep s : Str) : Str := replaceAllA s.length pat rep s

/-- Python `s.strip(c)` for a single character: drop every leading and
trailing occurrence of `c`. -/
def stripChar (c : Char) (s : Str) : Str :=
  ((s.dropWhile (· == c)).reverse.dropWhile (· == c)).reverse

/-- `"%d" % i`: decimal rendering of an integer. -/
def intToStr (i : Int) : Str :=
  if i < 0 then '-' :: Nat.toDigits 10 i.natAbs else Nat.toDigits 10 i.toNat

/-- All characters are decimal digits. -/
def allDigits : Str → Bool
  | [] => true
  | c :: rest => c.isDigit && allDigits rest

/-- The source's regex check `re.match('^-?[0-9]+$', s)`: an optionally
`-`-signed non-empty run of decimal digits.  (The Python-regex quirk that
`$` also matches before one trailing newline is not modelled; no claim
exercises it.) -/
def isSignedIntStr : Str → Bool
  | [] => false
  | '-' :: rest => !rest.isEmpty && allDigits rest
  | s => allDigits s

/-- Accumulator for decimal digit runs. -/
def decDigitsAux : Str → Nat → Option Nat
  | [], acc => some acc
  | c :: rest, acc =>
    if c.isDigit then decDigitsAux rest (acc * 10 + (c.toNat - '0'.toNat)) else none

/-- Modelled from the spec: `binwalk.core.common.str2int` is not under
`src/`; the parser only relies on it converting optionally-signed integer
text (the raw-size regex form) and failing on anything else, so it is
modelled as optionally-signed decimal integer parsing returning `none` on
any other input. -/
def str2int (s : Str) : Option Int :=
  match s with
  | [] => none
  | '-' :: rest => if rest.isEmpty then none else (decDigitsAux rest 0).map (fun n => -(n : Int))
  | _ => (decDigitsAux s 0).map (fun n => (n : Int))

/-- Modelled from the spec: `binwalk.core.common.get_quoted_strings` is not
under `src/`.  Per the spec, quoted spans denote file-supplied bytes and the
validator receives "its quoted substrings"; the source consumes the result
as one string, so this returns the maximal quoted region: the text between
the first and the last double-quote of `s` (empty when `s` holds fewer than
two quotes), which contains every quoted span. -/
def get_quoted_strings (s : Str) : Str :=
  let t := dropThrough ['"'] s
  if occursIn ['"'] t then (dropThrough ['"'] t.reverse).reverse else []

/-! ## The tag lexicon (`SmartSignature.KEYWORDS`)

Braces are written `\x7b` / `\x7d` for `{` / `}` throughout. -/

def KEYWORD_DELIM_START : Str := ("\x7b".toList)

def KEYWORD_DELIM_END : Str := ("\x7d".toList)

def kwJump : Str := ("\x7bjump-to-offset:".toList)

def kwFilename : Str := ("\x7bfile-name:".toList)

def kwFilesize : Str := ("\x7bfile-size:".toList)

def kwRawString : Str := ("\x7braw-string:".toList)

def kwStringLen : Str := ("\x7bstring-len:".toList)

def kwRawSize : Str := ("\x7braw-string-length:".toList)

def kwAdjust : Str := ("\x7boffset-adjust:".toList)

def kwDelay : Str := ("\x7bextract-delay:".toList)

def kwYear : Str := ("\x7bfile-year:".toList)

def kwEpoch : Str := ("\x7bfile-epoch:".toList)

def kwMath : Str := ("\x7bmath:".toList)

def kwRawReplace : Str := ("\x7braw-replace\x7d".toList)

def kwOneOfMany : Str := ("\x7bone-of-many\x7d".toList)

def kwStringLenReplace : Str := ("\x7bstring-len\x7d".toList)

/-- The `KEYWORDS` table, in the source's literal (insertion) order; the
source iterates it with `iterator(self.KEYWORDS)`. -/
def keywordList : List Str :=
  [kwJump, kwFilename, kwFilesize, kwRawString, kwStringLen, kwRawSize,
   kwAdjust, kwDelay, kwYear, kwEpoch, kwMath,
   kwRawReplace, kwOneOfMany, kwStringLenReplace]

/-! ## External collaborators and parser state -/

/-- The two collaborators outside this component, at their spec interface:
the math-expression evaluator (`MathExpression(arg).value`, `none` when the
expression does not evaluate) and the plausibility filter
(`self.filter.valid_result`). -/
structure Externals where
  mathEval : Str → Option Int
  filterValid : Str → Bool

/-- Mutable fields of a `SmartSignature` instance. -/
structure SmartState where
  ignore : Bool
  valid : Bool
  lastOneOfMany : Option Str
  deriving Repr, DecidableEq

/-- The dictionary built by `SmartSignature.parse` and passed to
`binwalk.core.module.Result`; `offset` and `extract` are filled by the
caller. -/
structure ParseResult where
  offset : Str := []
  description : Str := []
  name : Str := []
  delay : Str := []
  extract : Str := []
  jump : Int := 0
  size : Int := 0
  adjust : Int := 0
  year : Int := 0
  epoch : Int := 0
  valid : Bool := true
  deriving Repr, DecidableEq

/-! ## SmartSignature methods -/

/-- `SmartSignature._is_valid`: reject when the quoted (file-supplied) data
contains the opening delimiter and any lexicon keyword. -/
def _is_valid (data : Str) : Bool :=
  let quoted_data := get_quoted_strings data
  if !quoted_data.isEmpty && occursIn KEYWORD_DELIM_START quoted_data then
    !(keywordList.any (fun kw => occursIn kw quoted_data))
  else
    true

/-- `SmartSignature._get_keyword_arg`: Python
`data.split(keyword)[1].split('\x7d')[0]` when the keyword occurs, else `''`.
`split(keyword)[1]` is the text after the first occurrence truncated at the
next occurrence, hence the `takeUntil`/`dropThrough` composition. -/
def _get_keyword_arg (data kw : Str) : Str :=
  if occursIn kw data then
    takeUntil KEYWORD_DELIM_END (takeUntil kw (dropThrough kw data))
  else
    []

/-- `SmartSignature._get_math_arg`: evaluate a keyword argument as a math
expression; on evaluation failure the value defaults to 0 and
`self.valid` is cleared. -/
def _get_math_arg (ext : Externals) (st : SmartState) (data kw : Str) : Int × SmartState :=
  let arg := _get_keyword_arg data kw
  if arg ≠ [] then
    match ext.mathEval arg with
    | none => (0, { st with valid := false })
    | some v => (v, st)
  else
    (0, st)

/-- `SmartSignature._replace_maths`: the source's `while` loop, modelled
with an explicit iteration bound (first argument); each iteration rebuilds
the tag text `\x7bmath:ARG\x7d` from the first math argument and replaces
every occurrence of that exact text with the evaluated decimal value. -/
def _replace_maths : Nat → Externals → SmartState → Str → Str × SmartState
  | 0, _, st, data => (data, st)
  | fuel + 1, ext, st, data =>
    if occursIn kwMath data then
      let arg := _get_keyword_arg data kwMath
      let v := kwMath ++ arg ++ KEYWORD_DELIM_END
      let m := _get_math_arg ext st data kwMath
      _replace_maths fuel ext m.2 (replaceAll v (intToStr m.1) data)
    else
      (data, st)

/-- `SmartSignature._parse_raw_strings`: substitute the declared-length raw
payload for every `\x7braw-replace\x7d` before the raw-string tag, then
truncate at the raw-string tag.  (`str2int` cannot fail under the regex
guard, hence the `getD 0`.) -/
def _parse_raw_strings (st : SmartState) (data : Str) : Str :=
  if !st.ignore && _is_valid data then
    let raw_string := _get_keyword_arg data kwRawString
    if raw_string ≠ [] then
      let raw_size := _get_keyword_arg data kwRawSize
      if isSignedIntStr raw_size then
        replaceAll kwRawReplace
          ('"' :: (pySliceTake raw_string ((str2int raw_size).getD 0) ++ ['"']))
          (pySliceTake data (pyFind kwRawString data))
      else data
    else data
  else data

/-- `SmartSignature._parse_string_len`: substitute the argument's length for
every `\x7bstring-len\x7d` marker before the string-len tag and truncate
there.  (`'%d' % len(raw_string)` cannot fail, so the source's `try` is
modelled by the direct computation.) -/
def _parse_string_len (st : SmartState) (data : Str) : Str :=
  if !st.ignore && _is_valid data then
    let raw_string := _get_keyword_arg data kwStringLen
    if raw_string ≠ [] then
      replaceAll kwStringLenReplace (Nat.toDigits 10 raw_string.length) (takeUntil kwStringLen data)
    else data
  else data

/-- `SmartSignature._one_of_many`: duplicate-candidate tracking.  Python's
`data.split(',')[0]` is `takeUntil [','] data`. -/
def _one_of_many (ext : Externals) (st : SmartState) (data : Str) : Bool × SmartState :=
  if ext.filterValid data then
    match st.lastOneOfMany with
    | some k =>
      if k.isPrefixOf data then (true, st)
      else if occursIn kwOneOfMany data then
        (false, { st with lastOneOfMany := some (takeUntil [','] data) })
      else
        (false, { st with lastOneOfMany := none })
    | none =>
      if occursIn kwOneOfMany data then
        (false, { st with lastOneOfMany := some (takeUntil [','] data) })
      else
        (false, { st with lastOneOfMany := none })
  else
    (false, st)

/-- One iteration of `SmartSignature._strip_tags`' keyword loop: find the
first occurrence of `kw`, the next closing delimiter after it, and delete
every occurrence of that exact span (Python `data.replace(span, '')`). -/
def stripOne (data kw : Str) : Str :=
  match findSub kw data with
  | none => data
  | some start =>
    match findSub KEYWORD_DELIM_END (data.drop start) with
    | none => data
    | some e => replaceAll ((data.drop start).take (e + 1)) [] data

/-- `SmartSignature._strip_tags`: one pass over the lexicon in table
order. -/
def _strip_tags (st : SmartState) (data : Str) : Str :=
  if !st.ignore then keywordList.foldl stripOne data else data

/-- `SmartSignature.parse`.  The first argument bounds the iterations of the
`_replace_maths` while loop.  In the source, `results['size']` is
`str2int(self._get_math_arg(...))`; `_get_math_arg` returns an `int`, on
which `str2int` (Python `int(...)`) is the identity, so the `try` around it
cannot fire and `size` is the math-argument value directly. -/
def parse (fuel : Nat) (ext : Externals) (st0 : SmartState) (data : Str) :
    ParseResult × SmartState :=
  let st := { st0 with valid := true }
  if st.ignore || !(_is_valid data) then
    ({ description := data, valid := st.valid }, st)
  else
    let m := _replace_maths fuel ext st data
    let data3 := _parse_string_len m.2 (_parse_raw_strings m.2 m.1)
    let a := _get_math_arg ext m.2 data3 kwAdjust
    let s2 := _get_math_arg ext a.2 data3 kwFilesize
    let year := (str2int (_get_keyword_arg data3 kwYear)).getD 0
    let epoch := (str2int (_get_keyword_arg data3 kwEpoch)).getD 0
    let delay := _get_keyword_arg data3 kwDelay
    let j := _get_math_arg ext s2.2 data3 kwJump
    let o := _one_of_many ext j.2 data3
    let name := if o.1 then [] else stripChar '"' (_get_keyword_arg data3 kwFilename)
    let description := if o.1 then [] else _strip_tags o.2 data3
    ({ description := description, name := name, delay := delay,
       jump := j.1, size := s2.1, adjust := a.1, year := year, epoch := epoch,
       valid := o.2.valid }, o.2)

/-- Whether a math-argument extraction succeeds: the keyword argument is
absent or the evaluator yields a value. -/
def mathOk (ext : Externals) (data kw : Str) : Bool :=
  (_get_keyword_arg data kw).isEmpty || (ext.mathEval (_get_keyword_arg data kw)).isSome

/-! ## Concrete instances used to exercise the theorems -/

/-- An evaluator knowing the arithmetic facts the concrete runs need, and a
filter accepting everything. -/
def extW : Externals :=
  ⟨fun s =>
    if s = ("4+4".toList) then some 8
    else if s = ("8".toList) then some 8
    else if s = ("5".toList) then some 5
    else none,
   fun _ => true⟩

/-- A freshly-constructed parser state (`__init__`). -/
def stFresh : SmartState := ⟨false, true, none⟩

/-- A parser state holding a stored one-of-many group key `A`. -/
def stKeyA : SmartState := ⟨false, true, some ("A".toList)⟩

def dataC1 : Str := ("\"\x7bjump-to-offset:0\x7d\" trailer \x7bfile-name:\"x\"\x7d".toList)

def dataC2 : Str := ("\x7bfile-year:zz\x7d".toList)

def dataC2w : Str := ("\x7bfile-year:zz\x7d\x7boffset-adjust:q\x7d".toList)

def dataC3 : Str := ("A,x".toList)

def dataC4 : Str := ("\x7bmath:1".toList)

def dataC5 : Str := ("\x7bmath:1\x7d\x7bmath:2\x7d".toList)

def dataC5w : Str := ("hello, world".toList)

def dataC6 : Str := ("\x7bmath:4+4\x7d\x7bjump-to-offset:\x7bmath:4+4\x7d\x7d".toList)

/-- The math-resolved form of `dataC6`. -/
def dataC6r : Str := ("8\x7bjump-to-offset:8\x7d".toList)

def dataC7 : Str := ("\x7braw-replace\x7d\x7braw-string:HELLOWORLD\x7d\x7braw-string-length:5\x7d".toList)

def dataC8a : Str := ("AAA,\x7bone-of-many\x7d x".toList)

def dataC8b : Str := ("AAA,\x7bone-of-many\x7d y\x7bjump-to-offset:5\x7d".toList)

def dataC9 : Str := ("plain text, nothing".toList)

def dataC10 : Str := ("\x7braw-replace\x7d\x7braw-string:HELLOWORLD\x7d\x7braw-string-length:-3\x7d".toList)

/-- The duplicate condition of `_one_of_many`, as the code implements it:
a key is stored (`is not None`) and the data starts with it — whether or
not the one-of-many marker is present, and even when the key is empty. -/
def dupCheck (st : SmartState) (data : Str) : Bool :=
  match st.lastOneOfMany with
  | some k => k.isPrefixOf data
  | none => false

/-! ## Infrastructure lemmas about the string primitives -/

theorem isPrefixOf_nil_iff (pat : Str) : pat.isPrefixOf ([] : Str) = true ↔ pat = [] := by
  cases pat <;> simp [List.isPrefixOf]

theorem occursIn_nil_left (s : Str) : occursIn [] s = true := by
  induction s with
  | nil => rfl
  | cons c rest ih => simp [occursIn, List.isPrefixOf]

theorem ne_nil_of_occursIn {pat s : Str} (h : occursIn pat s = true) (hp : pat ≠ []) :
    s ≠ [] := by
  intro hs
  subst hs
  exact hp ((isPrefixOf_nil_iff pat).mp h)

theorem occursIn_append_left {a : Str} (t : Str) :
    ∀ {b : Str}, occursIn a b = true → occursIn a (b ++ t) = true := by
  intro b
  induction b with
  | nil =>
    intro h
    have ha : a = [] := (isPrefixOf_nil_iff a).mp h
    subst ha
    exact occursIn_nil_left t
  | cons y b' ih =>
    intro h
    rcases Bool.or_eq_true_iff.mp ((by simp [occursIn] at h ⊢; exact h) :
        (a.isPrefixOf (y :: b') || occursIn a b') = true) with hpre | hrest
    · have hp : a <+: y :: b' := List.isPrefixOf_iff_prefix.mp hpre
      have hp2 : a <+: (y :: b') ++ t := hp.trans (List.prefix_append (y :: b') t)
      have : a.isPrefixOf ((y :: b') ++ t) = true := List.isPrefixOf_iff_prefix.mpr hp2
      simp only [List.cons_append, occursIn] at this ⊢
      exact Bool.or_eq_true_iff.mpr (Or.inl this)
    · have := ih hrest
      simp only [List.cons_append, occursIn]
      exact Bool.or_eq_true_iff.mpr (Or.inr this)

theorem occursIn_trans {a b : Str} :
    ∀ {c : Str}, occursIn a b = true → occursIn b c = true → occursIn a c = true := by
  intro c
  induction c with
  | nil =>
    intro hab hbc
    have hb : b = [] := (isPrefixOf_nil_iff b).mp hbc
    subst hb
    exact hab
  | cons x r ih =>
    intro hab hbc
    rcases Bool.or_eq_true_iff.mp ((by simp [occursIn] at hbc ⊢; exact hbc) :
        (b.isPrefixOf (x :: r) || occursIn b r) = true) with hpre | hrest
    · obtain ⟨t, ht⟩ := List.isPrefixOf_iff_prefix.mp hpre
      rw [← ht]
      exact occursIn_append_left t hab
    · have := ih hab hrest
      simp only [occursIn]
      exact Bool.or_eq_true_iff.mpr (Or.inr this)

theorem findSub_eq_none {pat : Str} :
    ∀ {s : Str}, occursIn pat s = false → findSub pat s = none := by
  intro s
  induction s with
  | nil =>
    intro h
    simp only [occursIn] at h
    simp [findSub, h]
  | cons c rest ih =>
    intro h
    simp only [occursIn, Bool.or_eq_false_iff] at h
    simp [findSub, h.1, ih h.2]

theorem takeUntil_isPrefixOf (pat : Str) :
    ∀ s : Str, (takeUntil pat s).isPrefixOf s = true := by
  intro s
  induction s with
  | nil => rfl
  | cons c rest ih =>
    by_cases h : pat.isPrefixOf (c :: rest) = true
    · simp [takeUntil, h, List.isPrefixOf]
    · simp only [takeUntil, Bool.not_eq_true] at h
      simp [takeUntil, h, List.isPrefixOf, ih]

theorem replaceAllA_no_occ (pat rep : Str) :
    ∀ (f : Nat) (s : Str), occursIn pat s = false → replaceAllA f pat rep s = s := by
  intro f
  induction f with
  | zero => intro s _; rfl
  | succ f ih =>
    intro s h
    match s with
    | [] => rfl
    | c :: rest =>
      simp only [occursIn, Bool.or_eq_false_iff] at h
      have hg : ¬(pat ≠ [] ∧ pat.isPrefixOf (c :: rest) = true) := by
        intro hc
        rw [h.1] at hc
        exact Bool.false_ne_true hc.2
      simp only [replaceAllA, if_neg hg]
      rw [ih rest h.2]

theorem replaceAll_no_occ {pat s : Str} (rep : Str) (h : occursIn pat s = false) :
    replaceAll pat rep s = s :=
  replaceAllA_no_occ pat rep s.length s h

/-! ## Behavior lemmas about the SmartSignature methods -/

theorem get_keyword_arg_empty {data kw : Str} (h : occursIn kw data = false) :
    _get_keyword_arg data kw = [] := by
  simp [_get_keyword_arg, h]

theorem get_math_arg_no_kw (ext : Externals) (st : SmartState) {data kw : Str}
    (h : _get_keyword_arg data kw = []) :
    _get_math_arg ext st data kw = (0, st) := by
  simp [_get_math_arg, h]

theorem get_math_arg_state (ext : Externals) (st : SmartState) (data kw : Str) :
    (_get_math_arg ext st data kw).2.ignore = st.ignore ∧
    (_get_math_arg ext st data kw).2.lastOneOfMany = st.lastOneOfMany := by
  unfold _get_math_arg
  by_cases h : _get_keyword_arg data kw ≠ []
  · simp only [if_pos h]
    cases ext.mathEval (_get_keyword_arg data kw) <;> simp
  · simp [if_neg h]

/-- The computed value of a math argument does not depend on the incoming
state. -/
theorem get_math_arg_fst (ext : Externals) (st st' : SmartState) (data kw : Str) :
    (_get_math_arg ext st data kw).1 = (_get_math_arg ext st' data kw).1 := by
  unfold _get_math_arg
  by_cases h : _get_keyword_arg data kw ≠ []
  · simp only [if_pos h]
    cases ext.mathEval (_get_keyword_arg data kw) <;> simp
  · simp [if_neg h]

theorem get_math_arg_valid (ext : Externals) (st : SmartState) (data kw : Str) :
    (_get_math_arg ext st data kw).2.valid = (st.valid && mathOk ext data kw) := by
  unfold _get_math_arg mathOk
  by_cases h : _get_keyword_arg data kw ≠ []
  · simp only [if_pos h]
    cases hm : ext.mathEval (_get_keyword_arg data kw) <;>
      simp [hm, List.isEmpty_eq_false.mpr h]
  · push_neg at h
    simp [h]

theorem replace_maths_no_occ (ext : Externals) {data : Str}
    (h : occursIn kwMath data = false) :
    ∀ (fuel : Nat) (st : SmartState), _replace_maths fuel ext st data = (data, st) := by
  intro fuel st
  cases fuel with
  | zero => rfl
  | succ f => simp [_replace_maths, h]

theorem replace_maths_state (ext : Externals) :
    ∀ (fuel : Nat) (st : SmartState) (data : Str),
      (_replace_maths fuel ext st data).2.ignore = st.ignore ∧
      (_replace_maths fuel ext st data).2.lastOneOfMany = st.lastOneOfMany := by
  intro fuel
  induction fuel with
  | zero => intro st data; exact ⟨rfl, rfl⟩
  | succ f ih =>
    intro st data
    by_cases h : occursIn kwMath data = true
    · simp only [_replace_maths, if_pos h]
      have hm := get_math_arg_state ext st data kwMath
      have hr := ih (_get_math_arg ext st data kwMath).2
        (replaceAll (kwMath ++ _get_keyword_arg data kwMath ++ KEYWORD_DELIM_END)
          (intToStr (_get_math_arg ext st data kwMath).1) data)
      exact ⟨hr.1.trans hm.1, hr.2.trans hm.2⟩
    · rw [Bool.not_eq_true] at h
      simp [_replace_maths, h]

theorem parse_raw_strings_id {data : Str} (st : SmartState)
    (h : _get_keyword_arg data kwRawString = []) :
    _parse_raw_strings st data = data := by
  unfold _parse_raw_strings
  split
  · simp [h]
  · rfl

theorem parse_string_len_id {data : Str} (st : SmartState)
    (h : _get_keyword_arg data kwStringLen = []) :
    _parse_string_len st data = data := by
  unfold _parse_string_len
  split
  · simp [h]
  · rfl

theorem stripOne_id {data kw : Str} (h : occursIn kw data = false) :
    stripOne data kw = data := by
  simp [stripOne, findSub_eq_none h]

theorem strip_tags_of_no_tags {data : Str}
    (h : ∀ kw ∈ keywordList, occursIn kw data = false) (st : SmartState) :
    _strip_tags st data = data := by
  unfold _strip_tags
  split
  · have : ∀ l : List Str, (∀ kw ∈ l, occursIn kw data = false) →
        l.foldl stripOne data = data := by
      intro l
      induction l with
      | nil => intro _; rfl
      | cons kw l' ih =>
        intro hl
        simp only [List.foldl_cons, stripOne_id (hl kw (by simp))]
        exact ih (fun k hk => hl k (by simp [hk]))
    exact this keywordList h
  · rfl

theorem get_math_arg_last (ext : Externals) (st : SmartState) (data kw : Str) :
    (_get_math_arg ext st data kw).2.lastOneOfMany = st.lastOneOfMany :=
  (get_math_arg_state ext st data kw).2

theorem get_math_arg_ignore (ext : Externals) (st : SmartState) (data kw : Str) :
    (_get_math_arg ext st data kw).2.ignore = st.ignore :=
  (get_math_arg_state ext st data kw).1

/-- The extracted math value: the evaluator's answer (defaulting to 0 on
failure) when the argument is non-empty, else 0. -/
theorem get_math_arg_val (ext : Externals) (st : SmartState) (data kw : Str) :
    (_get_math_arg ext st data kw).1 =
      (if _get_keyword_arg data kw ≠ [] then
        (ext.mathEval (_get_keyword_arg data kw)).getD 0
      else 0) := by
  unfold _get_math_arg
  by_cases h : _get_keyword_arg data kw ≠ []
  · simp only [if_pos h]
    cases ext.mathEval (_get_keyword_arg data kw) <;> simp
  · simp [if_neg h]

theorem one_of_many_valid (ext : Externals) (st : SmartState) (data : Str) :
    (_one_of_many ext st data).2.valid = st.valid := by
  unfold _one_of_many
  cases hf : ext.filterValid data
  · simp
  · cases hl : st.lastOneOfMany with
    | none => by_cases hm : occursIn kwOneOfMany data = true <;> simp_all
    | some k =>
      by_cases hp : k.isPrefixOf data = true
      · simp_all
      · by_cases hm : occursIn kwOneOfMany data = true <;> simp_all

theorem findSub_isSome {pat : Str} :
    ∀ {s : Str}, occursIn pat s = true → (findSub pat s).isSome = true := by
  intro s
  induction s with
  | nil =>
    intro h
    simp only [occursIn] at h
    simp [findSub, h]
  | cons c rest ih =>
    intro h
    by_cases hp : pat.isPrefixOf (c :: rest) = true
    · simp [findSub, hp]
    · rw [Bool.not_eq_true] at hp
      simp only [occursIn, hp, Bool.false_or] at h
      simp only [findSub, hp, Bool.false_eq_true, if_false]
      cases hf : findSub pat rest with
      | none =>
        have hsome := ih h
        rw [hf] at hsome
        cases hsome
      | some n => simp [hf]

theorem findSub_take {pat : Str} :
    ∀ {s : Str} {n : Nat}, findSub pat s = some n → s.take n = takeUntil pat s := by
  intro s
  induction s with
  | nil =>
    intro n h
    simp only [findSub] at h
    by_cases hp : pat.isPrefixOf ([] : Str) = true
    · rw [if_pos hp] at h
      cases h
      rfl
    · rw [if_neg hp] at h
      cases h
  | cons c rest ih =>
    intro n h
    by_cases hp : pat.isPrefixOf (c :: rest) = true
    · simp only [findSub, if_pos hp] at h
      cases h
      simp [takeUntil, hp]
    · simp only [findSub, if_neg hp] at h
      cases hf : findSub pat rest with
      | none => rw [hf] at h; cases h
      | some m =>
        rw [hf] at h
        have hmn : m + 1 = n := by simpa using h
        subst hmn
        rw [Bool.not_eq_true] at hp
        simp [takeUntil, hp, List.take_succ_cons, ih hf]

/-- When the pattern occurs, Python `s[:s.find(pat)]` is the prefix of `s`
strictly before the first occurrence of `pat`. -/
theorem pySliceTake_find {pat s : Str} (h : occursIn pat s = true) :
    pySliceTake s (pyFind pat s) = takeUntil pat s := by
  have hs := findSub_isSome h
  cases hf : findSub pat s with
  | none => rw [hf] at hs; cases hs
  | some n =>
    unfold pyFind
    rw [hf]
    unfold pySliceTake
    have hnn : ¬((n : Int) < 0) := by omega
    rw [if_neg hnn]
    simpa using findSub_take hf

theorem one_of_many_none (ext : Externals) {st : SmartState} (h : st.lastOneOfMany = none)
    {data : Str} (hm : occursIn kwOneOfMany data = false) :
    _one_of_many ext st data = (false, st) := by
  unfold _one_of_many
  cases hf : ext.filterValid data
  · simp
  · cases st with
    | mk ig va last =>
      simp only at h
      subst h
      simp [hm]

theorem one_of_many_store (ext : Externals) {st : SmartState} (h : st.lastOneOfMany = none)
    {data : Str} (hf : ext.filterValid data = true) (hm : occursIn kwOneOfMany data = true) :
    _one_of_many ext st data = (false, { st with lastOneOfMany := some (takeUntil [','] data) }) := by
  simp [_one_of_many, hf, h, hm]

theorem one_of_many_dup (ext : Externals) {st : SmartState} {k data : Str}
    (h : st.lastOneOfMany = some k) (hf : ext.filterValid data = true)
    (hp : k.isPrefixOf data = true) :
    _one_of_many ext st data = (true, st) := by
  simp [_one_of_many, hf, h, hp]

/-- When no math tag, no raw-string argument and no string-len argument are
present, the three substitution passes leave the working string unchanged
and `parse` reduces to plain field extraction on the raw string. -/
theorem parse_no_subst (fuel : Nat) (ext : Externals) (st0 : SmartState) (data : Str)
    (hig : st0.ignore = false) (hv : _is_valid data = true)
    (hm : occursIn kwMath data = false)
    (hr : _get_keyword_arg data kwRawString = [])
    (hl : _get_keyword_arg data kwStringLen = []) :
    parse fuel ext st0 data =
      (let st : SmartState := { st0 with valid := true }
       let a := _get_math_arg ext st data kwAdjust
       let s2 := _get_math_arg ext a.2 data kwFilesize
       let j := _get_math_arg ext s2.2 data kwJump
       let o := _one_of_many ext j.2 data
       ({ description := if o.1 then [] else _strip_tags o.2 data,
          name := if o.1 then [] else stripChar '"' (_get_keyword_arg data kwFilename),
          delay := _get_keyword_arg data kwDelay,
          jump := j.1, size := s2.1, adjust := a.1,
          year := (str2int (_get_keyword_arg data kwYear)).getD 0,
          epoch := (str2int (_get_keyword_arg data kwEpoch)).getD 0,
          valid := o.2.valid }, o.2)) := by
  have h1 : ∀ st, _parse_raw_strings st data = data := fun st => parse_raw_strings_id st hr
  have h2 : ∀ st, _parse_string_len st data = data := fun st => parse_string_len_id st hl
  have h3 : ∀ f st, _replace_maths f ext st data = (data, st) :=
    fun f st => replace_maths_no_occ ext hm f st
  simp only [parse, h1, h2, h3, hig, hv, Bool.not_true, Bool.or_false, Bool.false_or,
    if_false, Bool.false_eq_true]

/-- Claim C9: an input containing no lexicon keyword parses (from the
initial duplicate-tracking state) to all-default numeric fields,
`valid = true`, empty name, and a description equal to the input. -/
theorem parse_tag_free_defaults (fuel : Nat) (ext : Externals) (st0 : SmartState)
    (data : Str) (hlast : st0.lastOneOfMany = none)
    (h : ∀ kw ∈ keywordList, occursIn kw data = false) :
    (parse fuel ext st0 data).1.jump = 0 ∧
    (parse fuel ext st0 data).1.size = 0 ∧
    (parse fuel ext st0 data).1.adjust = 0 ∧
    (parse fuel ext st0 data).1.year = 0 ∧
    (parse fuel ext st0 data).1.epoch = 0 ∧
    (parse fuel ext st0 data).1.valid = true ∧
    (parse fuel ext st0 data).1.name = [] ∧
    (parse fuel ext st0 data).1.description = data := by
  by_cases hp : (({ st0 with valid := true } : SmartState).ignore || !(_is_valid data)) = true
  · unfold parse
    rw [if_pos hp]
    simp
  · have hp' : (({ st0 with valid := true } : SmartState).ignore || !(_is_valid data)) = false :=
      Bool.eq_false_iff.mpr hp
    rcases Bool.or_eq_false_iff.mp hp' with ⟨h1, h2⟩
    have hig : st0.ignore = false := h1
    have hv : _is_valid data = true := by simpa using h2
    have hm : occursIn kwMath data = false := h kwMath (by decide)
    have hr : _get_keyword_arg data kwRawString = [] :=
      get_keyword_arg_empty (h kwRawString (by decide))
    have hl : _get_keyword_arg data kwStringLen = [] :=
      get_keyword_arg_empty (h kwStringLen (by decide))
    rw [parse_no_subst fuel ext st0 data hig hv hm hr hl]
    have ha : _get_keyword_arg data kwAdjust = [] :=
      get_keyword_arg_empty (h kwAdjust (by decide))
    have hs : _get_keyword_arg data kwFilesize = [] :=
      get_keyword_arg_empty (h kwFilesize (by decide))
    have hj : _get_keyword_arg data kwJump = [] :=
      get_keyword_arg_empty (h kwJump (by decide))
    have hy : _get_keyword_arg data kwYear = [] :=
      get_keyword_arg_empty (h kwYear (by decide))
    have he : _get_keyword_arg data kwEpoch = [] :=
      get_keyword_arg_empty (h kwEpoch (by decide))
    have hn : _get_keyword_arg data kwFilename = [] :=
      get_keyword_arg_empty (h kwFilename (by decide))
    have hone : occursIn kwOneOfMany data = false := h kwOneOfMany (by decide)
    have hlast' : ({ st0 with valid := true } : SmartState).lastOneOfMany = none := hlast
    have hoom := one_of_many_none ext hlast' hone
    have hstrip := fun st => strip_tags_of_no_tags h st
    simp [get_math_arg_no_kw ext _ ha, get_math_arg_no_kw ext _ hs,
      get_math_arg_no_kw ext _ hj, hy, he, hoom, hstrip, str2int, stripChar, hn]

/-- Witness for C9: the tag-free input `plain text, nothing` on a fresh
parser. -/
theorem parse_tag_free_defaults_witness :
    stFresh.lastOneOfMany = none ∧
    (∀ kw ∈ keywordList, occursIn kw dataC9 = false) ∧
    (parse 1 extW stFresh dataC9).1.description = dataC9 ∧
    (parse 1 extW stFresh dataC9).1.valid = true :=
  ⟨rfl, by decide,
   (parse_tag_free_defaults 1 extW stFresh dataC9 rfl (by decide)).2.2.2.2.2.2.2,
   (parse_tag_free_defaults 1 extW stFresh dataC9 rfl (by decide)).2.2.2.2.2.1⟩

/-- Claim C1: when the quoted (file-supplied) region of the input contains
the text of some lexicon keyword (hence the opening delimiter), `parse`
with interpretation enabled rejects the string: the description is the
untouched raw input, all other fields keep their defaults, and
`valid = true` — no tag is resolved or stripped. -/
theorem parse_injection_passthrough (fuel : Nat) (ext : Externals) (st0 : SmartState)
    (data kw : Str) (hig : st0.ignore = false) (hkw : kw ∈ keywordList)
    (hq : occursIn kw (get_quoted_strings data) = true) :
    (parse fuel ext st0 data).1.description = data ∧
    (parse fuel ext st0 data).1.name = [] ∧
    (parse fuel ext st0 data).1.delay = [] ∧
    (parse fuel ext st0 data).1.jump = 0 ∧
    (parse fuel ext st0 data).1.size = 0 ∧
    (parse fuel ext st0 data).1.adjust = 0 ∧
    (parse fuel ext st0 data).1.year = 0 ∧
    (parse fuel ext st0 data).1.epoch = 0 ∧
    (parse fuel ext st0 data).1.valid = true := by
  have hne : kw ≠ [] := by
    have hh : ∀ k ∈ keywordList, k ≠ ([] : Str) := by decide
    exact hh kw hkw
  have hdel : occursIn KEYWORD_DELIM_START kw = true := by
    have hh : ∀ k ∈ keywordList, occursIn KEYWORD_DELIM_START k = true := by decide
    exact hh kw hkw
  have hqne : get_quoted_strings data ≠ [] := ne_nil_of_occursIn hq hne
  have hqdel : occursIn KEYWORD_DELIM_START (get_quoted_strings data) = true :=
    occursIn_trans hdel hq
  have hany : keywordList.any (fun k => occursIn k (get_quoted_strings data)) = true :=
    List.any_eq_true.mpr ⟨kw, hkw, hq⟩
  have hinv : _is_valid data = false := by
    simp only [_is_valid]
    rw [List.isEmpty_eq_false.mpr hqne, hqdel]
    simp [hany]
  unfold parse
  rw [if_pos (by simp [hinv] : (({ st0 with valid := true } : SmartState).ignore
      || !(_is_valid data)) = true)]
  simp

/-- Witness for C1 at the spec's injection example: the quoted region of
`"{jump-to-offset:0}" trailer {file-name:"x"}` contains the jump keyword. -/
theorem parse_injection_passthrough_witness :
    stFresh.ignore = false ∧ kwJump ∈ keywordList ∧
    occursIn kwJump (get_quoted_strings dataC1) = true ∧
    (parse 1 extW stFresh dataC1).1.description = dataC1 ∧
    (parse 1 extW stFresh dataC1).1.valid = true :=
  ⟨rfl, by decide, by decide,
   (parse_injection_passthrough 1 extW stFresh dataC1 kwJump rfl (by decide) (by decide)).1,
   (parse_injection_passthrough 1 extW stFresh dataC1 kwJump rfl (by decide)
     (by decide)).2.2.2.2.2.2.2.2⟩

/-- Claim C5 counterexample: stripping `{math:1}{math:2}` once removes only
the first math tag span (leaving `{math:2}`), and stripping again removes the
second — so tag stripping is not idempotent. -/
theorem strip_tags_not_idempotent :
    ¬(_strip_tags stFresh (_strip_tags stFresh dataC5) = _strip_tags stFresh dataC5) := by
  decide

/-- Claim C5 amended: stripping is a no-op on a string containing no
lexicon keyword — in particular an already tag-free description is
returned unchanged.  (Full idempotence fails: removing a tag span can
splice the surrounding text into a new tag, see the counterexample.) -/
theorem strip_tags_tag_free_id (st : SmartState) (data : Str)
    (h : ∀ kw ∈ keywordList, occursIn kw data = false) :
    _strip_tags st data = data :=
  strip_tags_of_no_tags h st

/-- Witness for the amended C5 on a concrete tag-free string. -/
theorem strip_tags_tag_free_id_witness :
    (∀ kw ∈ keywordList, occursIn kw dataC5w = false) ∧
    _strip_tags stFresh dataC5w = dataC5w :=
  ⟨by decide, strip_tags_tag_free_id stFresh dataC5w (by decide)⟩

/-- Claim C3 counterexample: with stored group key `A`, input `A,x` passes
the filter, contains no one-of-many marker, and is still classified a
duplicate — and the stored key is not cleared. -/
theorem one_of_many_marker_not_required :
    occursIn kwOneOfMany dataC3 = false ∧
    (_one_of_many extW stKeyA dataC3).1 = true ∧
    (_one_of_many extW stKeyA dataC3).2.lastOneOfMany = some ("A".toList) := by
  decide

/-- Claim C3 amended: a call is a duplicate iff it passes the filter, some
group key is stored (possibly empty), and the string starts with that key —
independently of the marker tag; and only on a non-duplicate filtered call
is the key updated: set to the text before the first comma when the marker
is present, cleared when it is absent. -/
theorem one_of_many_characterization (ext : Externals) (st : SmartState) (data : Str) :
    (_one_of_many ext st data).1 = (ext.filterValid data && dupCheck st data) ∧
    (_one_of_many ext st data).2.lastOneOfMany =
      (if ext.filterValid data && !(dupCheck st data) then
        (if occursIn kwOneOfMany data then some (takeUntil [','] data) else none)
      else st.lastOneOfMany) := by
  unfold _one_of_many dupCheck
  cases hf : ext.filterValid data
  · simp
  · cases hl : st.lastOneOfMany with
    | none => cases hm : occursIn kwOneOfMany data <;> simp [hf, hl, hm]
    | some k =>
      cases hp : k.isPrefixOf data
      · cases hm : occursIn kwOneOfMany data <;> simp [hf, hl, hp, hm]
      · simp [hf, hl, hp]

/-- Claim C2 counterexample: parsing `{file-year:zz}` — whose year argument
fails numeric conversion — yields year = 0 but valid = true: the failure
does not clear the validity flag as the claim requires. -/
theorem parse_year_failure_keeps_valid :
    str2int (_get_keyword_arg dataC2 kwYear) = none ∧
    (parse 1 extW stFresh dataC2).1.year = 0 ∧
    (parse 1 extW stFresh dataC2).1.valid = true := by
  decide

/-- Claim C2 amended: every extraction failure other than cancellation
defaults its field, but only math-evaluation failures (the adjust,
filesize and jump arguments) clear the validity flag; year/epoch
conversion failures leave it untouched — the emitted `valid` is exactly
the conjunction of the three math-argument checks. -/
theorem parse_extraction_failure_policy (fuel : Nat) (ext : Externals) (st0 : SmartState)
    (data : Str) (hig : st0.ignore = false) (hv : _is_valid data = true)
    (hm : occursIn kwMath data = false)
    (hr : _get_keyword_arg data kwRawString = [])
    (hl : _get_keyword_arg data kwStringLen = []) :
    (parse fuel ext st0 data).1.year = (str2int (_get_keyword_arg data kwYear)).getD 0 ∧
    (parse fuel ext st0 data).1.epoch = (str2int (_get_keyword_arg data kwEpoch)).getD 0 ∧
    (parse fuel ext st0 data).1.adjust =
      (if _get_keyword_arg data kwAdjust ≠ [] then
        (ext.mathEval (_get_keyword_arg data kwAdjust)).getD 0
      else 0) ∧
    (parse fuel ext st0 data).1.size =
      (if _get_keyword_arg data kwFilesize ≠ [] then
        (ext.mathEval (_get_keyword_arg data kwFilesize)).getD 0
      else 0) ∧
    (parse fuel ext st0 data).1.jump =
      (if _get_keyword_arg data kwJump ≠ [] then
        (ext.mathEval (_get_keyword_arg data kwJump)).getD 0
      else 0) ∧
    (parse fuel ext st0 data).1.valid =
      ((mathOk ext data kwAdjust && mathOk ext data kwFilesize) && mathOk ext data kwJump) := by
  rw [parse_no_subst fuel ext st0 data hig hv hm hr hl]
  refine ⟨rfl, rfl, ?_, ?_, ?_, ?_⟩
  · exact get_math_arg_val ext _ data kwAdjust
  · exact get_math_arg_val ext _ data kwFilesize
  · exact get_math_arg_val ext _ data kwJump
  · show (_one_of_many ext _ data).2.valid = _
    rw [one_of_many_valid, get_math_arg_valid, get_math_arg_valid, get_math_arg_valid]
    simp [Bool.and_assoc]

/-- Witness for the amended C2: `{file-year:zz}{offset-adjust:q}` has a failing
year conversion (field defaults, flag untouched by it) and a failing
adjust evaluation (flag cleared). -/
theorem parse_extraction_failure_policy_witness :
    _is_valid dataC2w = true ∧
    (parse 1 extW stFresh dataC2w).1.year = (str2int (_get_keyword_arg dataC2w kwYear)).getD 0 ∧
    (parse 1 extW stFresh dataC2w).1.valid =
      ((mathOk extW dataC2w kwAdjust && mathOk extW dataC2w kwFilesize) &&
        mathOk extW dataC2w kwJump) :=
  ⟨by decide,
   (parse_extraction_failure_policy 1 extW stFresh dataC2w rfl (by decide) (by decide)
     (by decide) (by decide)).1,
   (parse_extraction_failure_policy 1 extW stFresh dataC2w rfl (by decide) (by decide)
     (by decide) (by decide)).2.2.2.2.2⟩

/-- Claim C4 refuted (code bug): on the unterminated input `{math:1`, every
iteration of the `_replace_maths` while-loop leaves the data unchanged —
the rebuilt tag text `{math:1}` does not occur in the data, so the replace is
a no-op — while the loop guard (`'{math:' in data`) stays true.  The source's
while loop therefore never terminates, for every math evaluator. -/
theorem replace_maths_stuck (ext : Externals) :
    (∀ (fuel : Nat) (st : SmartState), (_replace_maths fuel ext st dataC4).1 = dataC4) ∧
    occursIn kwMath dataC4 = true := by
  constructor
  · intro fuel
    induction fuel with
    | zero => intro st; rfl
    | succ f ih =>
      intro st
      have hocc : occursIn kwMath dataC4 = true := by decide
      have harg : _get_keyword_arg dataC4 kwMath = ("1".toList) := by decide
      have hno : occursIn (kwMath ++ ("1".toList) ++ KEYWORD_DELIM_END) dataC4 = false := by
        decide
      simp only [_replace_maths, if_pos hocc, harg]
      rw [replaceAll_no_occ _ hno]
      exact ih _
  · decide

/-- Claim C6: on `dataC6` the math pass replaces the tag text by `8` at
both of its occurrences before any other tag is read, and the parsed jump
value is 8 (given an evaluator with `4+4 = 8`). -/
theorem parse_math_fixpoint_jump (fuel : Nat) (ext : Externals) (st0 : SmartState)
    (hig : st0.ignore = false) (hfuel : 1 ≤ fuel)
    (h44 : ext.mathEval ("4+4".toList) = some 8)
    (h8 : ext.mathEval ("8".toList) = some 8) :
    (∀ st : SmartState, (_replace_maths fuel ext st dataC6).1 = dataC6r) ∧
    (parse fuel ext st0 dataC6).1.jump = 8 := by
  obtain ⟨f, rfl⟩ : ∃ f, fuel = f + 1 := ⟨fuel - 1, by omega⟩
  have hstep : ∀ st : SmartState, _replace_maths (f + 1) ext st dataC6 = (dataC6r, st) := by
    intro st
    have hocc : occursIn kwMath dataC6 = true := by decide
    have harg : _get_keyword_arg dataC6 kwMath = ("4+4".toList) := by decide
    have h44' : ext.mathEval (['4', '+', '4']) = some 8 := h44
    have hm : _get_math_arg ext st dataC6 kwMath = (8, st) := by
      unfold _get_math_arg
      rw [harg]
      simp [h44']
    simp only [_replace_maths, if_pos hocc, harg, hm]
    have hrep : replaceAll (kwMath ++ ("4+4".toList) ++ KEYWORD_DELIM_END) (intToStr 8) dataC6
        = dataC6r := by decide
    rw [hrep]
    exact replace_maths_no_occ ext (by decide) f st
  refine ⟨fun st => by rw [hstep st], ?_⟩
  have hv : _is_valid dataC6 = true := by decide
  have hraw : ∀ s : SmartState, _parse_raw_strings s dataC6r = dataC6r :=
    fun s => parse_raw_strings_id s (by decide)
  have hlen : ∀ s : SmartState, _parse_string_len s dataC6r = dataC6r :=
    fun s => parse_string_len_id s (by decide)
  have hja : _get_keyword_arg dataC6r kwJump = ("8".toList) := by decide
  have h8' : ext.mathEval (['8']) = some 8 := h8
  have hj : ∀ s : SmartState, _get_math_arg ext s dataC6r kwJump = (8, s) := by
    intro s
    unfold _get_math_arg
    rw [hja]
    simp [h8']
  simp only [parse, hig, hv, hstep, hraw, hlen, hj, Bool.not_true, Bool.or_false,
    Bool.false_or, Bool.false_eq_true, if_false]

/-- Witness for C6 with the concrete evaluator. -/
theorem parse_math_fixpoint_jump_witness :
    extW.mathEval ("4+4".toList) = some 8 ∧
    (parse 1 extW stFresh dataC6).1.jump = 8 :=
  ⟨by decide,
   (parse_math_fixpoint_jump 1 extW stFresh rfl (by decide) (by decide) (by decide)).2⟩

/-- Successful raw-string resolution: the working string becomes its prefix
before the raw-string tag, with the quoted sliced payload substituted for
every raw-replace marker in it. -/
theorem parse_raw_strings_success (st : SmartState) (data : Str)
    (hig : st.ignore = false) (hv : _is_valid data = true)
    (hrs : _get_keyword_arg data kwRawString ≠ [])
    (hsz : isSignedIntStr (_get_keyword_arg data kwRawSize) = true) :
    _parse_raw_strings st data =
      replaceAll kwRawReplace
        ('"' :: (pySliceTake (_get_keyword_arg data kwRawString)
            ((str2int (_get_keyword_arg data kwRawSize)).getD 0) ++ ['"']))
        (takeUntil kwRawString data) := by
  have hocc : occursIn kwRawString data = true := by
    by_contra hc
    rw [Bool.not_eq_true] at hc
    exact hrs (get_keyword_arg_empty hc)
  unfold _parse_raw_strings
  rw [if_pos (by simp [hig, hv] : (!st.ignore && _is_valid data) = true)]
  rw [if_pos hrs, if_pos hsz, pySliceTake_find hocc]

/-- A malformed raw-size argument leaves the working string completely
unchanged. -/
theorem parse_raw_strings_badsize (st : SmartState) (data : Str)
    (hsz : isSignedIntStr (_get_keyword_arg data kwRawSize) = false) :
    _parse_raw_strings st data = data := by
  unfold _parse_raw_strings
  split
  · dsimp only
    split
    · rw [if_neg (by simp [hsz])]
    · rfl
  · rfl

/-- Claim C7: for an accepted string with a non-empty raw-string argument,
a pattern-matching raw-size yields the marker substitution over the prefix
before the raw-string tag (discarding the tag and everything after), and a
non-matching raw-size returns the working string unchanged. -/
theorem parse_raw_strings_spec (st : SmartState) (data : Str)
    (hig : st.ignore = false) (hv : _is_valid data = true)
    (hrs : _get_keyword_arg data kwRawString ≠ []) :
    (isSignedIntStr (_get_keyword_arg data kwRawSize) = true →
      _parse_raw_strings st data =
        replaceAll kwRawReplace
          ('"' :: (pySliceTake (_get_keyword_arg data kwRawString)
              ((str2int (_get_keyword_arg data kwRawSize)).getD 0) ++ ['"']))
          (takeUntil kwRawString data)) ∧
    (isSignedIntStr (_get_keyword_arg data kwRawSize) = false →
      _parse_raw_strings st data = data) :=
  ⟨fun hsz => parse_raw_strings_success st data hig hv hrs hsz,
   fun hsz => parse_raw_strings_badsize st data hsz⟩

/-- Witness for C7 at the spec's raw-string example. -/
theorem parse_raw_strings_spec_witness :
    isSignedIntStr (_get_keyword_arg dataC7 kwRawSize) = true ∧
    _parse_raw_strings stFresh dataC7 = ("\"HELLO\"".toList) :=
  ⟨by decide,
   ((parse_raw_strings_spec stFresh dataC7 rfl (by decide) (by decide)).1 (by decide)).trans
     (by decide)⟩

/-- Claim C10: a negative raw-size `-n` slices off the last `n` characters
of the raw-string argument (a Python negative slice) — not a truncation to
`n` characters; when `n` is at least the argument's length the quoted
payload is empty while the truncation at the raw-string tag still
happens. -/
theorem parse_raw_strings_negative_size (st : SmartState) (data : Str) (n : Nat)
    (hig : st.ignore = false) (hv : _is_valid data = true)
    (hrs : _get_keyword_arg data kwRawString ≠ [])
    (hsz : isSignedIntStr (_get_keyword_arg data kwRawSize) = true)
    (hneg : str2int (_get_keyword_arg data kwRawSize) = some (-(n : Int)))
    (hn : 0 < n) :
    (_parse_raw_strings st data =
      replaceAll kwRawReplace
        ('"' :: ((_get_keyword_arg data kwRawString).take
            ((_get_keyword_arg data kwRawString).length - n) ++ ['"']))
        (takeUntil kwRawString data)) ∧
    ((_get_keyword_arg data kwRawString).length ≤ n →
      _parse_raw_strings st data =
        replaceAll kwRawReplace ('"' :: ['"']) (takeUntil kwRawString data)) := by
  have h1 := parse_raw_strings_success st data hig hv hrs hsz
  rw [hneg] at h1
  have hslice : pySliceTake (_get_keyword_arg data kwRawString) ((some (-(n : Int))).getD 0) =
      (_get_keyword_arg data kwRawString).take
        ((_get_keyword_arg data kwRawString).length - n) := by
    simp only [Option.getD_some]
    unfold pySliceTake
    rw [if_pos (by omega : -(n : Int) < 0)]
    congr 1
    simp
  rw [hslice] at h1
  refine ⟨h1, fun hle => ?_⟩
  rw [h1]
  have hzero : (_get_keyword_arg data kwRawString).length - n = 0 := by omega
  rw [hzero]
  simp

/-- Witness for C10: raw size `-3` on `HELLOWORLD` substitutes
`"HELLOWO"`. -/
theorem parse_raw_strings_negative_size_witness :
    str2int (_get_keyword_arg dataC10 kwRawSize) = some (-(3 : Int)) ∧
    _parse_raw_strings stFresh dataC10 = ("\"HELLOWO\"".toList) :=
  ⟨by decide,
   ((parse_raw_strings_negative_size stFresh dataC10 3 rfl (by decide) (by decide)
      (by decide) (by decide) (by decide)).1).trans (by decide)⟩

/-- The duplicate-tracking state a first one-of-many call leaves behind:
the group key is the text before the first comma, and the ignore flag is
preserved. -/
theorem parse_out_state (fuel : Nat) (ext : Externals) (st0 : SmartState) (d1 : Str)
    (hig : st0.ignore = false) (hlast : st0.lastOneOfMany = none)
    (hv1 : _is_valid d1 = true) (hf1 : ext.filterValid d1 = true)
    (hm1 : occursIn kwMath d1 = false)
    (hr1 : _get_keyword_arg d1 kwRawString = [])
    (hl1 : _get_keyword_arg d1 kwStringLen = [])
    (ho1 : occursIn kwOneOfMany d1 = true) :
    (parse fuel ext st0 d1).2.lastOneOfMany = some (takeUntil [','] d1) ∧
    (parse fuel ext st0 d1).2.ignore = false := by
  rw [parse_no_subst fuel ext st0 d1 hig hv1 hm1 hr1 hl1]
  dsimp only
  rw [one_of_many_store ext ?hn hf1 ho1]
  case hn => simp [get_math_arg_last, hlast]
  refine ⟨rfl, ?_⟩
  simp [get_math_arg_ignore, hig]

/-- A parse call whose incoming state stores a group key that prefixes the
input (and which passes the filter) is suppressed: empty name and
description, while jump and adjust are still extracted from the input. -/
theorem parse_after_dup (fuel : Nat) (ext : Externals) (st1 : SmartState) (d2 k : Str)
    (hig : st1.ignore = false) (hv2 : _is_valid d2 = true)
    (hm2 : occursIn kwMath d2 = false)
    (hr2 : _get_keyword_arg d2 kwRawString = [])
    (hl2 : _get_keyword_arg d2 kwStringLen = [])
    (hf2 : ext.filterValid d2 = true)
    (hk : st1.lastOneOfMany = some k) (hp : k.isPrefixOf d2 = true) :
    (parse fuel ext st1 d2).1.name = [] ∧
    (parse fuel ext st1 d2).1.description = [] ∧
    (parse fuel ext st1 d2).1.jump = (_get_math_arg ext stFresh d2 kwJump).1 ∧
    (parse fuel ext st1 d2).1.adjust = (_get_math_arg ext stFresh d2 kwAdjust).1 := by
  rw [parse_no_subst fuel ext st1 d2 hig hv2 hm2 hr2 hl2]
  dsimp only
  rw [one_of_many_dup ext ?hk2 hf2 hp]
  case hk2 => simp [get_math_arg_last, hk]
  refine ⟨by simp, by simp, ?_, ?_⟩
  · exact get_math_arg_fst ext _ stFresh d2 kwJump
  · exact get_math_arg_fst ext _ stFresh d2 kwAdjust

/-- Claim C8: for two sequential accepted calls that share the text before
the first comma and both carry the one-of-many marker (and no substitution
tags), the second call returns empty name and empty description while its
jump and adjust values are still those extracted from the second input. -/
theorem parse_one_of_many_suppression (fuel : Nat) (ext : Externals) (st0 : SmartState)
    (d1 d2 : Str) (hig : st0.ignore = false) (hlast : st0.lastOneOfMany = none)
    (hv1 : _is_valid d1 = true) (hv2 : _is_valid d2 = true)
    (hf1 : ext.filterValid d1 = true) (hf2 : ext.filterValid d2 = true)
    (hm1 : occursIn kwMath d1 = false) (hm2 : occursIn kwMath d2 = false)
    (hr1 : _get_keyword_arg d1 kwRawString = []) (hr2 : _get_keyword_arg d2 kwRawString = [])
    (hl1 : _get_keyword_arg d1 kwStringLen = []) (hl2 : _get_keyword_arg d2 kwStringLen = [])
    (ho1 : occursIn kwOneOfMany d1 = true) (ho2 : occursIn kwOneOfMany d2 = true)
    (hpre : takeUntil [','] d1 = takeUntil [','] d2) :
    (parse fuel ext (parse fuel ext st0 d1).2 d2).1.name = [] ∧
    (parse fuel ext (parse fuel ext st0 d1).2 d2).1.description = [] ∧
    (parse fuel ext (parse fuel ext st0 d1).2 d2).1.jump =
      (_get_math_arg ext stFresh d2 kwJump).1 ∧
    (parse fuel ext (parse fuel ext st0 d1).2 d2).1.adjust =
      (_get_math_arg ext stFresh d2 kwAdjust).1 := by
  have h1 := parse_out_state fuel ext st0 d1 hig hlast hv1 hf1 hm1 hr1 hl1 ho1
  have hp : (takeUntil [','] d1).isPrefixOf d2 = true := by
    rw [hpre]
    exact takeUntil_isPrefixOf [','] d2
  exact parse_after_dup fuel ext (parse fuel ext st0 d1).2 d2 (takeUntil [','] d1)
    h1.2 hv2 hm2 hr2 hl2 hf2 h1.1 hp

/-- Witness for C8 on two concrete one-of-many inputs sharing the prefix
`AAA`. -/
theorem parse_one_of_many_suppression_witness :
    occursIn kwOneOfMany dataC8a = true ∧
    occursIn kwOneOfMany dataC8b = true ∧
    takeUntil [','] dataC8a = takeUntil [','] dataC8b ∧
    ((parse 1 extW (parse 1 extW stFresh dataC8a).2 dataC8b).1.name = [] ∧
     (parse 1 extW (parse 1 extW stFresh dataC8a).2 dataC8b).1.description = [] ∧
     (parse 1 extW (parse 1 extW stFresh dataC8a).2 dataC8b).1.jump =
       (_get_math_arg extW stFresh dataC8b kwJump).1 ∧
     (parse 1 extW (parse 1 extW stFresh dataC8a).2 dataC8b).1.adjust =
       (_get_math_arg extW stFresh dataC8b kwAdjust).1) :=
  ⟨by decide, by decide, by decide,
   parse_one_of_many_suppression 1 extW stFresh dataC8a dataC8b rfl rfl
     (by decide) (by decide) (by decide) (by decide) (by decide) (by decide)
     (by decide) (by decide) (by decide) (by decide) (by decide) (by decide)
     (by decide)⟩

end BinwalkSmart
